import Mathlib

/-!
Verification of the myfs in-memory filesystem (src/operations.c).

The embedding models the capacity-accounting layer: the per-superblock
used-block ledger, the buffered-write path (myfs_write_begin, the caller's
byte copy, myfs_write_end, myset_page_dirty_no_writeback), the deletion
path (myfs_unlink), capacity reporting (myfs_statfs), and inode creation
(myfs_get_inode, myfs_mknod, myfs_create, myfs_mkdir, myfs_symlink) with
its on-create hook.

Machine integers: loff_t offsets and unsigned lengths are Nat (all values
in the modelled flows are non-negative); the atomic_long used-block counter
is Int; inode->__i_nlink is an unsigned int, so decrement and increment are
taken mod 2^32; struct kstatfs's f_blocks/f_bfree/f_bavail are u64, modelled
as Nat reduced mod 2^64, with the C unsigned comparison u64 < 0 rendered as
the (identically false) Nat comparison.
-/

/-- PAGE_CACHE_SIZE: page size in bytes (4096; PAGE_CACHE_SHIFT = 12). -/
def pageCacheSize : Nat := 4096

/-- nlink arithmetic modulus: inode->__i_nlink is a 32-bit unsigned int. -/
def nlinkMod : Nat := 2 ^ 32

/-- u64 arithmetic modulus for struct kstatfs fields. -/
def u64Mod : Nat := 2 ^ 64

/-- Unsigned 32-bit decrement (inode->__i_nlink--): 0 wraps to 2^32 - 1.
For n < 2^32 this equals (n + 2^32 - 1) % 2^32; see nlinkDec_eq_mod. -/
def nlinkDec (n : Nat) : Nat := if n = 0 then nlinkMod - 1 else n - 1

/-- Unsigned 32-bit increment (inc_nlink): 2^32 - 1 wraps to 0.
For n < 2^32 this equals (n + 1) % 2^32; see nlinkInc_eq_mod. -/
def nlinkInc (n : Nat) : Nat := if n = nlinkMod - 1 then 0 else n + 1

/-- Reduce an integer into u64 range, as C's conversion to u64 does. -/
def toU64 (x : Int) : Nat := (x % (u64Mod : Int)).toNat

/-- -ENOMEM, the error returned by myfs_write_begin on exhaustion. -/
def eNOMEM : Int := -12

/-- -ENOSPC, the error returned by myfs_mknod when new_inode fails. -/
def eNOSPC : Int := -28

/-- A page-cache page: the uptodate flag, the dirty flag and the byte
contents (a total function on byte indices; only indices below
pageCacheSize are meaningful). -/
structure Page where
  uptodate : Bool
  dirty : Bool
  data : Nat → Nat

/-- An inode as the write and unlink paths see it: link count, logical
size (i_size) and the page-cache mapping, an association list from page
index to page.  i_mapping->nrpages is the length of that list. -/
structure Inode where
  nlink : Nat
  isize : Nat
  pages : List (Nat × Page)

/-- Page-cache lookup by index (find_get_page). -/
def pcLookup (k : Nat) : List (Nat × α) → Option α
  | [] => none
  | (k', v) :: rest => if k = k' then some v else pcLookup k rest

/-- Store a value at a key: replace the first entry with that key, or
append a new entry.  Models updating a page object that lives in the
mapping (and radix-tree insertion for a fresh page). -/
def pcUpdate (k : Nat) (v : α) : List (Nat × α) → List (Nat × α)
  | [] => [(k, v)]
  | (k', v') :: rest => if k = k' then (k, v) :: rest else (k', v') :: pcUpdate k v rest

/-- zero a half-open byte range [s, e) of a byte map. -/
def zeroRange (d : Nat → Nat) (s e : Nat) : Nat → Nat :=
  fun i => if s ≤ i ∧ i < e then 0 else d i

/-- zero_user_segments(page, s1, e1, s2, e2): zero [s1, e1) and [s2, e2). -/
def zero_user_segments (p : Page) (s1 e1 s2 e2 : Nat) : Page :=
  { p with data := zeroRange (zeroRange p.data s1 e1) s2 e2 }

/-- zero_user(page, start, len): zero [start, start + len). -/
def zero_user (p : Page) (start len : Nat) : Page :=
  { p with data := zeroRange p.data start (start + len) }

/-- myset_page_dirty_no_writeback: if the page is not dirty, set the dirty
flag and return !TestSetPageDirty (1, since the observed old value was
clean); otherwise return 0.  Installed as a_ops->set_page_dirty, so
set_page_dirty(page) in myfs_write_end dispatches here. -/
def myset_page_dirty_no_writeback (p : Page) : Int × Page :=
  if p.dirty = false then
    let old := p.dirty
    ((if old then 0 else 1), { p with dirty := true })
  else
    (0, p)

/-- grab_cache_page_write_begin: return the page at the index if present,
else insert a fresh page (not uptodate, not dirty, uninitialized contents
given by garbage). -/
def grab_cache_page_write_begin (pages : List (Nat × Page)) (index : Nat)
    (garbage : Nat → Nat) : Page × List (Nat × Page) :=
  match pcLookup index pages with
  | some p => (p, pages)
  | none =>
    let p : Page := ⟨false, false, garbage⟩
    (p, pcUpdate index p pages)

/-- myfs_write_begin: reject with -ENOMEM when used_blocks ≥ maxblks
(maxblks = fs_max_size / s_blocksize, both read before any page is
touched); otherwise grab the page at index pos >> PAGE_CACHE_SHIFT and,
if it is not uptodate and len != PAGE_CACHE_SIZE, zero the byte ranges
this write will not cover.  Returns the page index, the (possibly zeroed)
page handed to the caller through *pagep, and the updated inode. -/
def myfs_write_begin (used maxblks : Int) (inode : Inode) (pos len : Nat)
    (garbage : Nat → Nat) : Except Int (Nat × Page × Inode) :=
  if used ≥ maxblks then
    Except.error eNOMEM
  else
    let index := pos / pageCacheSize
    let g := grab_cache_page_write_begin inode.pages index garbage
    let page := g.1
    let page :=
      if page.uptodate = false ∧ len ≠ pageCacheSize then
        let ofs := pos % pageCacheSize
        zero_user_segments page 0 ofs (ofs + len) pageCacheSize
      else page
    Except.ok (index, page, { inode with pages := pcUpdate index page g.2 })

/-- Result of myfs_write_end (and of a whole write): the returned value,
the ledger counter after the call, and the inode after the call. -/
structure WriteEndResult where
  ret : Int
  used : Int
  inode : Inode

/-- myfs_write_end: zero the stale tail [ofs + copied, ofs + len) on a
short copy, set the page uptodate, extend i_size when pos + copied passes
it, call set_page_dirty (the aop above) and bump the used-block counter
exactly when it reports a clean-to-dirty transition, and return copied. -/
def myfs_write_end (used : Int) (inode : Inode) (page : Page)
    (pos len copied index : Nat) : WriteEndResult :=
  let lastPos := pos + copied
  let page :=
    if copied < len then
      let ofs := pos % pageCacheSize
      zero_user page (ofs + copied) (len - copied)
    else page
  let page := if page.uptodate = false then { page with uptodate := true } else page
  let isize := if lastPos > inode.isize then lastPos else inode.isize
  let r := myset_page_dirty_no_writeback page
  let used' := if r.1 ≠ 0 then used + 1 else used
  { ret := (copied : Int), used := used',
    inode := { inode with isize := isize, pages := pcUpdate index r.2 inode.pages } }

/-- The generic caller's copy step between write_begin and write_end:
copy copied bytes of data into the page at offset ofs. -/
def copyToPage (p : Page) (ofs : Nat) (data : Nat → Nat) (copied : Nat) : Page :=
  { p with data := fun i => if ofs ≤ i ∧ i < ofs + copied then data (i - ofs) else p.data i }

/-- One complete buffered write: myfs_write_begin, the caller's copy of
copied bytes, then myfs_write_end.  On rejection nothing is changed and
the error is returned. -/
def doWrite (used maxblks : Int) (inode : Inode) (pos len copied : Nat)
    (data garbage : Nat → Nat) : WriteEndResult :=
  match myfs_write_begin used maxblks inode pos len garbage with
  | Except.error e => { ret := e, used := used, inode := inode }
  | Except.ok (index, page, inode₁) =>
    myfs_write_end used inode₁ (copyToPage page (pos % pageCacheSize) data copied)
      pos len copied index

/-- Result of myfs_unlink: the return value, whether the WARN_ON fired,
and the ledger counter and inode afterwards. -/
structure UnlinkResult where
  ret : Int
  warned : Bool
  used : Int
  inode : Inode

/-- myfs_unlink: WARN_ON(i_nlink == 0) (non-fatal, execution continues),
decrement __i_nlink (unsigned 32-bit, so 0 wraps to 2^32 - 1), and if the
link count is now zero subtract nrpages from used_blocks and truncate the
mapping (drop every page).  Always returns 0. -/
def myfs_unlink (used : Int) (inode : Inode) : UnlinkResult :=
  let warned := inode.nlink == 0
  let nlink' := nlinkDec inode.nlink
  if nlink' = 0 then
    { ret := 0, warned := warned,
      used := used - (inode.pages.length : Int),
      inode := { inode with nlink := nlink', pages := [] } }
  else
    { ret := 0, warned := warned, used := used,
      inode := { inode with nlink := nlink' } }

/-- myfs_statfs's available-block computation: f_blocks = fs_max_size /
s_blocksize stored in a u64, f_bavail = f_blocks - used_blocks in u64
arithmetic, then the source's clamp `if (f_bavail < 0) f_bavail = 0` --
an unsigned comparison, modelled exactly as the (never-true) Nat
comparison it compiles to. -/
def myfs_statfs_bavail (fsMaxSize blocksize : Nat) (used : Int) : Nat :=
  let fBlocks : Nat := (fsMaxSize / blocksize) % u64Mod
  let bav : Nat := toU64 ((fBlocks : Int) - used)
  if bav < 0 then 0 else bav

/-- The available count the specification promises: max(0, maxblks - used). -/
def specAvail (fsMaxSize blocksize : Nat) (used : Int) : Nat :=
  (((fsMaxSize / blocksize : Nat) : Int) - used).toNat

/-- Inode operation tables selected by myfs_get_inode's switch on the
file-type bits of mode. -/
inductive IOps where
  | fileOps
  | dirOps
  | symlinkOps
  | specialOps
deriving DecidableEq

/-- File-type mask and type bits (POSIX mode encoding). -/
def S_IFMT : Nat := 0xF000

/-- S_IFREG: regular file. -/
def S_IFREG : Nat := 0x8000

/-- S_IFDIR: directory. -/
def S_IFDIR : Nat := 0x4000

/-- S_IFLNK: symbolic link. -/
def S_IFLNK : Nat := 0xA000

/-- A freshly created inode as myfs_get_inode initializes it: inode
number from get_next_ino, the requested mode, link count (1 from
new_inode, bumped to 2 for directories), the selected i_op table, device
number for special inodes, and the flag that i_mapping->a_ops was set to
myfs_aops. -/
structure VfsInode where
  ino : Nat
  mode : Nat
  nlink : Nat
  iop : IOps
  rdev : Nat
  aopsSet : Bool
deriving DecidableEq

/-- myfs_get_inode: new_inode's outcome is the alloc argument (some ino
on success, none on failure).  On success the inode is initialized and
the switch on mode & S_IFMT picks the operations (default:
init_special_inode records dev; directories get inc_nlink).  In every
case, including alloc failure, the on-create hook
myfs_hook_ops.create_inode is invoked exactly once with the (possibly
null) inode before returning; the second component records the hook
invocations in order. -/
def myfs_get_inode (alloc : Option Nat) (mode dev : Nat) :
    Option VfsInode × List (Option VfsInode) :=
  match alloc with
  | none => (none, [none])
  | some ino =>
    let base : VfsInode :=
      { ino := ino, mode := mode, nlink := 1, iop := IOps.specialOps,
        rdev := 0, aopsSet := true }
    let inode :=
      if mode &&& S_IFMT = S_IFREG then { base with iop := IOps.fileOps }
      else if mode &&& S_IFMT = S_IFDIR then
        { base with iop := IOps.dirOps, nlink := nlinkInc base.nlink }
      else if mode &&& S_IFMT = S_IFLNK then { base with iop := IOps.symlinkOps }
      else { base with rdev := dev }
    (some inode, [some inode])

/-- The i_op table myfs_get_inode's switch selects for a mode. -/
def expectedIop (mode : Nat) : IOps :=
  if mode &&& S_IFMT = S_IFREG then IOps.fileOps
  else if mode &&& S_IFMT = S_IFDIR then IOps.dirOps
  else if mode &&& S_IFMT = S_IFLNK then IOps.symlinkOps
  else IOps.specialOps

/-- Result of an inode-creation operation: the error code, the created
inode (if any), and the on-create hook invocations that happened. -/
structure MknodResult where
  ret : Int
  inode : Option VfsInode
  hookCalls : List (Option VfsInode)

/-- myfs_mknod: call myfs_get_inode; on success instantiate the dentry
and return 0, otherwise return -ENOSPC. -/
def myfs_mknod (alloc : Option Nat) (mode dev : Nat) : MknodResult :=
  let g := myfs_get_inode alloc mode dev
  match g.1 with
  | some i => { ret := 0, inode := some i, hookCalls := g.2 }
  | none => { ret := eNOSPC, inode := none, hookCalls := g.2 }

/-- myfs_create: mknod with S_IFREG or-ed into the mode. -/
def myfs_create (alloc : Option Nat) (mode : Nat) : MknodResult :=
  myfs_mknod alloc (mode ||| S_IFREG) 0

/-- myfs_mkdir: mknod with S_IFDIR or-ed in; on success inc_nlink the
parent directory (second component: the parent's new link count). -/
def myfs_mkdir (alloc : Option Nat) (mode dirNlink : Nat) : MknodResult × Nat :=
  let r := myfs_mknod alloc (mode ||| S_IFDIR) 0
  (r, if r.ret = 0 then nlinkInc dirNlink else dirNlink)

/-- myfs_symlink: myfs_get_inode with S_IFLNK|S_IRWXUGO; if allocation
fails return -ENOSPC; otherwise page_symlink runs (its outcome is the
pageSymlinkRet argument) and on its failure the inode is released (iput)
and its error returned. -/
def myfs_symlink (alloc : Option Nat) (pageSymlinkRet : Int) : MknodResult :=
  let g := myfs_get_inode alloc (S_IFLNK ||| 0o777) 0
  match g.1 with
  | none => { ret := eNOSPC, inode := none, hookCalls := g.2 }
  | some i =>
    if pageSymlinkRet = 0 then { ret := 0, inode := some i, hookCalls := g.2 }
    else { ret := pageSymlinkRet, inode := none, hookCalls := g.2 }

/-- True when the page at the index is absent or not yet fully populated
(not uptodate). -/
def notUptodateAt (pages : List (Nat × Page)) (idx : Nat) : Bool :=
  match pcLookup idx pages with
  | none => true
  | some p => !p.uptodate

/-- Whole-filesystem state for operation sequences: the used-block
counter of the superblock and the live inodes, keyed by inode number. -/
structure SbState where
  used : Int
  inodes : List (Nat × Inode)

/-- A fresh regular file inode as creation produces it: one link, empty. -/
def newRegInode : Inode := { nlink := 1, isize := 0, pages := [] }

/-- Filesystem operations for sequences: create a (regular) file, add a
hard link (simple_link's inc_nlink), one complete buffered write, and
unlink.  Operations naming an absent inode are no-ops. -/
inductive Op where
  | create (ino : Nat)
  | link (ino : Nat)
  | write (ino pos len copied : Nat) (data garbage : Nat → Nat)
  | unlink (ino : Nat)

/-- One step of the filesystem on an operation. -/
def step (maxblks : Int) (sb : SbState) : Op → SbState
  | Op.create ino =>
    match pcLookup ino sb.inodes with
    | some _ => sb
    | none => { sb with inodes := sb.inodes ++ [(ino, newRegInode)] }
  | Op.link ino =>
    match pcLookup ino sb.inodes with
    | none => sb
    | some i =>
      { sb with inodes := pcUpdate ino { i with nlink := nlinkInc i.nlink } sb.inodes }
  | Op.write ino pos len copied data garbage =>
    match pcLookup ino sb.inodes with
    | none => sb
    | some i =>
      let r := doWrite sb.used maxblks i pos len copied data garbage
      { used := r.used, inodes := pcUpdate ino r.inode sb.inodes }
  | Op.unlink ino =>
    match pcLookup ino sb.inodes with
    | none => sb
    | some i =>
      let r := myfs_unlink sb.used i
      { used := r.used, inodes := pcUpdate ino r.inode sb.inodes }

/-- Number of dirty pages of one inode. -/
def dirtyCount (i : Inode) : Nat := i.pages.countP (fun e => e.2.dirty)

/-- Number of dirty pages across all live inodes. -/
def totalDirty (l : List (Nat × Inode)) : Nat := (l.map (fun e => dirtyCount e.2)).sum

/-- Run a sequence of operations from the freshly mounted state
(used_blocks = 0, no inodes). -/
def runOps (maxblks : Int) (ops : List Op) : SbState :=
  ops.foldl (step maxblks) { used := 0, inodes := [] }

/-- The accounting invariant: the ledger equals the dirty-page count and
every page held by any mapping is dirty. -/
def LedgerInv (sb : SbState) : Prop :=
  sb.used = (totalDirty sb.inodes : Int) ∧
    ∀ e ∈ sb.inodes, ∀ q ∈ e.2.pages, q.2.dirty = true

/-! Association-list lemmas for the page cache and the inode table. -/

theorem pcLookup_pcUpdate_self (k : Nat) (v : α) (l : List (Nat × α)) :
    pcLookup k (pcUpdate k v l) = some v := by
  induction l with
  | nil => simp [pcUpdate, pcLookup]
  | cons e rest ih =>
    obtain ⟨k', v'⟩ := e
    by_cases h : k = k' <;> simp [pcUpdate, pcLookup, h, ih]

theorem pcUpdate_of_lookup_none (k : Nat) (v : α) {l : List (Nat × α)}
    (h : pcLookup k l = none) : pcUpdate k v l = l ++ [(k, v)] := by
  induction l with
  | nil => simp [pcUpdate]
  | cons e rest ih =>
    obtain ⟨k', v'⟩ := e
    by_cases hk : k = k'
    · simp [pcLookup, hk] at h
    · simp [pcLookup, hk] at h
      simp [pcUpdate, hk, ih h]

theorem pcUpdate_append_of_lookup_none (k : Nat) (v w : α) {l : List (Nat × α)}
    (t : List (Nat × α)) (h : pcLookup k l = none) :
    pcUpdate k v (l ++ (k, w) :: t) = l ++ (k, v) :: t := by
  induction l with
  | nil => simp [pcUpdate]
  | cons e rest ih =>
    obtain ⟨k', v'⟩ := e
    by_cases hk : k = k'
    · simp [pcLookup, hk] at h
    · simp [pcLookup, hk] at h
      simp [pcUpdate, hk, ih h]

theorem mem_pcUpdate {x : Nat × α} {k : Nat} {v : α} {l : List (Nat × α)}
    (h : x ∈ pcUpdate k v l) : x = (k, v) ∨ x ∈ l := by
  induction l with
  | nil => simpa [pcUpdate] using h
  | cons e rest ih =>
    obtain ⟨k', v'⟩ := e
    by_cases hk : k = k'
    · subst hk
      simp [pcUpdate] at h
      rcases h with h | h
      · exact Or.inl (by simp [h])
      · exact Or.inr (by simp [h])
    · simp [pcUpdate, hk] at h
      rcases h with h | h
      · exact Or.inr (by simp [h])
      · rcases ih h with h' | h'
        · exact Or.inl h'
        · exact Or.inr (by simp [h'])

theorem pcLookup_mem {k : Nat} {v : α} {l : List (Nat × α)}
    (h : pcLookup k l = some v) : (k, v) ∈ l := by
  induction l with
  | nil => simp [pcLookup] at h
  | cons e rest ih =>
    obtain ⟨k', v'⟩ := e
    by_cases hk : k = k'
    · simp [pcLookup, hk] at h
      simp [hk, h]
    · simp [pcLookup, hk] at h
      exact List.mem_cons_of_mem _ (ih h)

theorem countP_pcUpdate (Q : Nat × α → Bool) {k : Nat} {p : α} (v : α)
    {l : List (Nat × α)} (h : pcLookup k l = some p) :
    (pcUpdate k v l).countP Q + (if Q (k, p) then 1 else 0)
      = l.countP Q + (if Q (k, v) then 1 else 0) := by
  induction l with
  | nil => simp [pcLookup] at h
  | cons e rest ih =>
    obtain ⟨k', v'⟩ := e
    by_cases hk : k = k'
    · subst hk
      simp [pcLookup] at h
      subst h
      simp [pcUpdate, List.countP_cons]
      split_ifs <;> omega
    · simp [pcLookup, hk] at h
      have hrec := ih h
      simp [pcUpdate, hk, List.countP_cons]
      split_ifs at hrec ⊢ <;> omega

theorem sum_map_pcUpdate (f : Nat × α → Nat) {k : Nat} {p : α} (v : α)
    {l : List (Nat × α)} (h : pcLookup k l = some p) :
    ((pcUpdate k v l).map f).sum + f (k, p) = (l.map f).sum + f (k, v) := by
  induction l with
  | nil => simp [pcLookup] at h
  | cons e rest ih =>
    obtain ⟨k', v'⟩ := e
    by_cases hk : k = k'
    · subst hk
      simp [pcLookup] at h
      subst h
      simp [pcUpdate]
      omega
    · simp [pcLookup, hk] at h
      have hrec := ih h
      simp [pcUpdate, hk]
      omega

/-! Page-flag bookkeeping lemmas: the data-only operations leave the
uptodate and dirty bits alone, and marking dirty behaves as TestSet. -/

@[simp] theorem zero_user_dirty (p : Page) (s n : Nat) : (zero_user p s n).dirty = p.dirty := rfl

@[simp] theorem zero_user_uptodate (p : Page) (s n : Nat) :
    (zero_user p s n).uptodate = p.uptodate := rfl

@[simp] theorem zero_user_segments_dirty (p : Page) (a b c d : Nat) :
    (zero_user_segments p a b c d).dirty = p.dirty := rfl

@[simp] theorem zero_user_segments_uptodate (p : Page) (a b c d : Nat) :
    (zero_user_segments p a b c d).uptodate = p.uptodate := rfl

@[simp] theorem copyToPage_dirty (p : Page) (o : Nat) (d : Nat → Nat) (c : Nat) :
    (copyToPage p o d c).dirty = p.dirty := rfl

@[simp] theorem copyToPage_uptodate (p : Page) (o : Nat) (d : Nat → Nat) (c : Nat) :
    (copyToPage p o d c).uptodate = p.uptodate := rfl

theorem myset_fst (p : Page) :
    (myset_page_dirty_no_writeback p).1 = if p.dirty then 0 else 1 := by
  cases hd : p.dirty <;> simp [myset_page_dirty_no_writeback, hd]

theorem myset_snd_dirty (p : Page) : (myset_page_dirty_no_writeback p).2.dirty = true := by
  cases hd : p.dirty <;> simp [myset_page_dirty_no_writeback, hd]

theorem myset_snd_uptodate (p : Page) :
    (myset_page_dirty_no_writeback p).2.uptodate = p.uptodate := by
  cases hd : p.dirty <;> simp [myset_page_dirty_no_writeback, hd]

theorem myset_snd_data (p : Page) :
    (myset_page_dirty_no_writeback p).2.data = p.data := by
  cases hd : p.dirty <;> simp [myset_page_dirty_no_writeback, hd]

/-- C1. On overshoot (used_blocks = 5 with maxblks = 4, a state the design
itself permits through concurrent admission), myfs_statfs's f_bavail is
computed in u64 arithmetic, so maxblks - used underflows to 2^64 - 1 and
the source's clamp `if (f_bavail < 0)` -- an unsigned comparison -- never
fires; the reported available count is 2^64 - 1, not the specified
max(0, maxblks - used) = 0. -/
theorem statfs_bavail_underflow_at_overshoot :
    myfs_statfs_bavail 16384 4096 5 = u64Mod - 1 ∧
    specAvail 16384 4096 5 = 0 ∧ u64Mod - 1 ≠ 0 := by
  refine ⟨?_, by decide, by decide⟩
  decide

/-- C10. When the underlying inode allocation (new_inode) fails,
myfs_get_inode still invokes the on-create hook exactly once, passing it
the null inode, and returns null. -/
theorem get_inode_null_alloc_hook (mode dev : Nat) :
    myfs_get_inode none mode dev = (none, [none]) := rfl

/-- C9. myfs_unlink raises the WARN_ON diagnostic exactly when the link
count is already zero, still returns 0 (never fatal, execution
continues), and still decrements the link count (unsigned 32-bit
decrement, so zero wraps to 2^32 - 1). -/
theorem unlink_warns_and_continues_on_zero_nlink (used : Int) (inode : Inode) :
    (myfs_unlink used inode).warned = (inode.nlink == 0) ∧
    (myfs_unlink used inode).ret = 0 ∧
    (myfs_unlink used inode).inode.nlink = nlinkDec inode.nlink := by
  by_cases h : nlinkDec inode.nlink = 0 <;>
    simp [myfs_unlink, h]

/-- C5. myfs_unlink refunds the ledger and discards pages exactly when the
decremented link count reaches zero: otherwise the ledger and the page set
are untouched; at zero the mapping is emptied and nrpages blocks are
refunded. -/
theorem unlink_refund_only_at_zero_nlink (used : Int) (inode : Inode) :
    (myfs_unlink used inode).inode.pages
        = (if nlinkDec inode.nlink = 0 then [] else inode.pages) ∧
    (myfs_unlink used inode).used
        = (if nlinkDec inode.nlink = 0
           then used - (inode.pages.length : Int) else used) := by
  by_cases h : nlinkDec inode.nlink = 0 <;>
    simp [myfs_unlink, h]

/-- The branch-form unsigned decrement agrees with mod-2^32 arithmetic on
every in-range link count. -/
theorem nlinkDec_eq_mod {n : Nat} (h : n < nlinkMod) :
    nlinkDec n = (n + (nlinkMod - 1)) % nlinkMod := by
  unfold nlinkDec nlinkMod at *
  by_cases h0 : n = 0
  · subst h0
    norm_num
  · rw [if_neg h0]
    omega

/-- The branch-form unsigned increment agrees with mod-2^32 arithmetic on
every in-range link count. -/
theorem nlinkInc_eq_mod {n : Nat} (h : n < nlinkMod) :
    nlinkInc n = (n + 1) % nlinkMod := by
  unfold nlinkInc nlinkMod at *
  by_cases h0 : n = 2 ^ 32 - 1
  · subst h0
    norm_num
  · rw [if_neg h0]
    omega

/-- C3. One call of myfs_write_end charges the ledger one block when the
page it is handed was clean (its first transition to dirty) and zero
blocks when the page was already dirty, and the page it stores back is
dirty either way -- so over any sequence of writes to one page, exactly
the first one charges. -/
theorem write_end_charge_idempotent (used : Int) (inode : Inode) (page : Page)
    (pos len copied index : Nat) :
    (myfs_write_end used inode page pos len copied index).used
        = used + (if page.dirty then 0 else 1) ∧
    ∃ q, pcLookup index (myfs_write_end used inode page pos len copied index).inode.pages
        = some q ∧ q.dirty = true := by
  constructor
  · cases hd : page.dirty <;>
      simp [myfs_write_end, myset_page_dirty_no_writeback, hd] <;>
      split_ifs <;> simp_all
  · simp only [myfs_write_end]
    exact ⟨_, pcLookup_pcUpdate_self _ _ _, myset_snd_dirty _⟩

/-- C7. myfs_write_end returns copied, leaves the stored page uptodate
(fully populated), and sets i_size to pos + copied exactly when that
exceeds the previous size, leaving it unchanged otherwise. -/
theorem write_end_sets_uptodate_size_ret (used : Int) (inode : Inode) (page : Page)
    (pos len copied index : Nat) :
    (myfs_write_end used inode page pos len copied index).ret = (copied : Int) ∧
    (myfs_write_end used inode page pos len copied index).inode.isize
        = (if pos + copied > inode.isize then pos + copied else inode.isize) ∧
    ∃ q, pcLookup index (myfs_write_end used inode page pos len copied index).inode.pages
        = some q ∧ q.uptodate = true := by
  refine ⟨rfl, rfl, ?_⟩
  simp only [myfs_write_end]
  refine ⟨_, pcLookup_pcUpdate_self _ _ _, ?_⟩
  rw [myset_snd_uptodate]
  split_ifs with h1 <;> simp_all

/-- C4. When the ledger snapshot already meets or exceeds maxblks,
myfs_write_begin returns -ENOMEM before touching any page, and the whole
write leaves the ledger and the inode (page store, size, link count)
exactly as they were. -/
theorem write_begin_rejects_when_full (used maxblks : Int) (inode : Inode)
    (pos len copied : Nat) (data garbage : Nat → Nat) (h : used ≥ maxblks) :
    myfs_write_begin used maxblks inode pos len garbage = Except.error eNOMEM ∧
    doWrite used maxblks inode pos len copied data garbage
      = { ret := eNOMEM, used := used, inode := inode } := by
  constructor
  · simp [myfs_write_begin, h]
  · simp [doWrite, myfs_write_begin, h]

/-- Witness for C4: a concrete full filesystem (used = maxblks = 4)
rejects a write and is left unchanged. -/
theorem write_begin_rejects_when_full_witness :
    (4 : Int) ≥ 4 ∧
    (myfs_write_begin 4 4 newRegInode 0 100 (fun _ => 7) = Except.error eNOMEM ∧
      doWrite 4 4 newRegInode 0 100 60 (fun _ => 1) (fun _ => 7)
        = { ret := eNOMEM, used := 4, inode := newRegInode }) :=
  ⟨by decide,
    write_begin_rejects_when_full 4 4 newRegInode 0 100 60 (fun _ => 1) (fun _ => 7)
      (by decide)⟩

/-- When new_inode succeeds, myfs_get_inode returns a fully initialized
inode -- a_ops installed, requested mode stored, operations table chosen
by the file-type switch, link count 2 for directories (inc_nlink) and 1
otherwise -- and calls the on-create hook exactly once with it. -/
theorem get_inode_some (ino mode dev : Nat) :
    ∃ i, myfs_get_inode (some ino) mode dev = (some i, [some i]) ∧
      i.aopsSet = true ∧ i.mode = mode ∧ i.ino = ino ∧ i.iop = expectedIop mode ∧
      i.nlink = (if mode &&& S_IFMT = S_IFDIR then 2 else 1) := by
  refine ⟨_, rfl, ?_, ?_, ?_, ?_, ?_⟩ <;>
    simp only [myfs_get_inode, expectedIop] <;>
    split_ifs with h1 h2 h3 <;>
    simp_all [S_IFREG, S_IFDIR, S_IFLNK, nlinkInc, nlinkMod]

/-- C8. Every creation operation (mknod, create, mkdir, symlink) invokes
the on-create hook exactly once, synchronously, before returning, and
mknod either returns success having produced a fully initialized inode
(a_ops set, requested mode, type-matched operations table, correct link
count) or fails with -ENOSPC exactly when inode allocation failed. -/
theorem inode_creation_hook_once (alloc : Option Nat) (mode dev : Nat) (e : Int)
    (dn : Nat) :
    (myfs_mknod alloc mode dev).hookCalls.length = 1 ∧
    (myfs_create alloc mode).hookCalls.length = 1 ∧
    ((myfs_mkdir alloc mode dn).1).hookCalls.length = 1 ∧
    (myfs_symlink alloc e).hookCalls.length = 1 ∧
    (((myfs_mknod alloc mode dev).ret = 0 ∧
        ∃ i, (myfs_mknod alloc mode dev).inode = some i ∧ i.aopsSet = true ∧
          i.mode = mode ∧ i.iop = expectedIop mode ∧
          i.nlink = (if mode &&& S_IFMT = S_IFDIR then 2 else 1)) ∨
      ((myfs_mknod alloc mode dev).ret = eNOSPC ∧
        (myfs_mknod alloc mode dev).inode = none ∧ alloc = none)) := by
  cases alloc with
  | none =>
    simp [myfs_mknod, myfs_create, myfs_mkdir, myfs_symlink, myfs_get_inode]
  | some ino =>
    obtain ⟨i1, hg1, ha1, hm1, hi1, hop1, hn1⟩ := get_inode_some ino mode dev
    obtain ⟨i2, hg2, -, -, -, -, -⟩ := get_inode_some ino (mode ||| S_IFREG) 0
    obtain ⟨i3, hg3, -, -, -, -, -⟩ := get_inode_some ino (mode ||| S_IFDIR) 0
    obtain ⟨i4, hg4, -, -, -, -, -⟩ := get_inode_some ino (S_IFLNK ||| 0o777) 0
    refine ⟨?_, ?_, ?_, ?_, Or.inl ⟨?_, i1, ?_, ha1, hm1, hop1, hn1⟩⟩
    · simp [myfs_mknod, hg1]
    · simp [myfs_create, myfs_mknod, hg2]
    · simp [myfs_mkdir, myfs_mknod, hg3]
    · simp only [myfs_symlink, hg4]
      split_ifs <;> simp
    · simp [myfs_mknod, hg1]
    · simp [myfs_mknod, hg1]

/-- Updating the same key twice keeps only the last value. -/
theorem pcUpdate_pcUpdate (k : Nat) (v w : α) (l : List (Nat × α)) :
    pcUpdate k v (pcUpdate k w l) = pcUpdate k v l := by
  induction l with
  | nil => simp [pcUpdate]
  | cons e rest ih =>
    obtain ⟨k', v'⟩ := e
    by_cases hk : k = k' <;> simp [pcUpdate, hk, ih]

/-- The ledger delta of one myfs_write_end call is one block when the
incoming page is clean and zero when it is already dirty. -/
theorem write_end_used_delta (used : Int) (inode : Inode) (page : Page)
    (pos len copied index : Nat) :
    (myfs_write_end used inode page pos len copied index).used
        = used + (if page.dirty then 0 else 1) := by
  cases hd : page.dirty <;>
    simp [myfs_write_end, myset_page_dirty_no_writeback, hd] <;>
    split_ifs <;> simp_all

/-- myfs_write_end stores one dirty, uptodate page at the written index
and leaves all other entries of the mapping alone. -/
theorem write_end_pages_shape (used : Int) (inode : Inode) (page : Page)
    (pos len copied index : Nat) :
    ∃ q, (myfs_write_end used inode page pos len copied index).inode.pages
        = pcUpdate index q inode.pages ∧ q.dirty = true := by
  simp only [myfs_write_end]
  exact ⟨_, rfl, myset_snd_dirty _⟩

/-- Shape of a successful myfs_write_begin: it hands back the page at
pos >> PAGE_CACHE_SHIFT (zeroed outside the write range when it was not
uptodate and the write is partial), stores it in the mapping, and the
returned page keeps the grabbed page's uptodate and dirty bits. -/
theorem write_begin_ok_shape (used maxblks : Int) (inode : Inode) (pos len : Nat)
    (garbage : Nat → Nat) (h : ¬ used ≥ maxblks) :
    ∃ pg, myfs_write_begin used maxblks inode pos len garbage
        = Except.ok (pos / pageCacheSize, pg,
            { inode with pages := pcUpdate (pos / pageCacheSize) pg (grab_cache_page_write_begin inode.pages (pos / pageCacheSize) garbage).2 }) ∧
      pg.dirty = (grab_cache_page_write_begin inode.pages (pos / pageCacheSize) garbage).1.dirty ∧
      pg.uptodate
        = (grab_cache_page_write_begin inode.pages (pos / pageCacheSize) garbage).1.uptodate := by
  simp only [myfs_write_begin, if_neg h]
  refine ⟨_, rfl, ?_, ?_⟩ <;> split_ifs <;> simp

/-- One complete write changes the ledger by exactly the change in the
inode's dirty-page count (zero on rejection or rewrite of a dirty page,
one on first dirtying of a page), and keeps every mapped page dirty. -/
theorem doWrite_dirty_delta (used maxblks : Int) (i : Inode) (pos len copied : Nat)
    (data garbage : Nat → Nat) (hall : ∀ q ∈ i.pages, q.2.dirty = true) :
    (doWrite used maxblks i pos len copied data garbage).used + (dirtyCount i : Int)
        = used + (dirtyCount (doWrite used maxblks i pos len copied data garbage).inode : Int) ∧
    ∀ q ∈ (doWrite used maxblks i pos len copied data garbage).inode.pages, q.2.dirty = true := by
  by_cases hadm : used ≥ maxblks
  · constructor
    · simp [doWrite, myfs_write_begin, hadm]
    · intro q hq
      exact hall q (by simpa [doWrite, myfs_write_begin, hadm] using hq)
  · obtain ⟨pg, hwb, hpgd, hpgu⟩ := write_begin_ok_shape used maxblks i pos len garbage hadm
    have hdw : doWrite used maxblks i pos len copied data garbage
        = myfs_write_end used { i with pages := pcUpdate (pos / pageCacheSize) pg (grab_cache_page_write_begin i.pages (pos / pageCacheSize) garbage).2 } (copyToPage pg (pos % pageCacheSize) data copied) pos len copied (pos / pageCacheSize) := by
      simp [doWrite, hwb]
    obtain ⟨q, hpq, hqd⟩ := write_end_pages_shape used
      { i with pages := pcUpdate (pos / pageCacheSize) pg (grab_cache_page_write_begin i.pages (pos / pageCacheSize) garbage).2 }
      (copyToPage pg (pos % pageCacheSize) data copied) pos len copied (pos / pageCacheSize)
    rw [hdw]
    cases hlk : pcLookup (pos / pageCacheSize) i.pages with
    | some p =>
      have hgrab : grab_cache_page_write_begin i.pages (pos / pageCacheSize) garbage
          = (p, i.pages) := by
        simp [grab_cache_page_write_begin, hlk]
      have hpd : p.dirty = true := hall _ (pcLookup_mem hlk)
      have hpgd' : pg.dirty = true := by rw [hpgd, hgrab]; exact hpd
      have hfin : (myfs_write_end used { i with pages := pcUpdate (pos / pageCacheSize) pg (grab_cache_page_write_begin i.pages (pos / pageCacheSize) garbage).2 } (copyToPage pg (pos % pageCacheSize) data copied) pos len copied (pos / pageCacheSize)).inode.pages
          = pcUpdate (pos / pageCacheSize) q i.pages := by
        rw [hpq]
        simp [hgrab, pcUpdate_pcUpdate]
      constructor
      · rw [write_end_used_delta]
        simp only [dirtyCount, hfin]
        have hcnt := countP_pcUpdate (fun e => e.2.dirty) q hlk
        simp [hpd, hqd] at hcnt
        simp [hpgd', hcnt]
      · intro e he
        rw [hfin] at he
        rcases mem_pcUpdate he with rfl | hm
        · exact hqd
        · exact hall _ hm
    | none =>
      have hgrab : grab_cache_page_write_begin i.pages (pos / pageCacheSize) garbage
          = (⟨false, false, garbage⟩, pcUpdate (pos / pageCacheSize) ⟨false, false, garbage⟩ i.pages) := by
        simp [grab_cache_page_write_begin, hlk]
      have hpgd' : pg.dirty = false := by rw [hpgd, hgrab]
      have hfin : (myfs_write_end used { i with pages := pcUpdate (pos / pageCacheSize) pg (grab_cache_page_write_begin i.pages (pos / pageCacheSize) garbage).2 } (copyToPage pg (pos % pageCacheSize) data copied) pos len copied (pos / pageCacheSize)).inode.pages
          = i.pages ++ [(pos / pageCacheSize, q)] := by
        rw [hpq]
        rw [hgrab]
        rw [pcUpdate_pcUpdate, pcUpdate_pcUpdate]
        exact pcUpdate_of_lookup_none _ _ hlk
      constructor
      · rw [write_end_used_delta]
        simp only [dirtyCount, hfin]
        simp [hpgd', hqd, List.countP_append, List.countP_cons]
        omega
      · intro e he
        rw [hfin] at he
        rcases List.mem_append.mp he with hm | hm
        · exact hall _ hm
        · rw [List.mem_singleton.mp hm]
          exact hqd

/-- countP is the full length on a list all of whose elements satisfy
the predicate. -/
theorem countP_eq_length_of_all {p : α → Bool} {l : List α}
    (h : ∀ a ∈ l, p a = true) : l.countP p = l.length := by
  induction l with
  | nil => simp
  | cons a rest ih =>
    have ha : p a = true := h a (by simp)
    have hr := ih (fun b hb => h b (by simp [hb]))
    simp [List.countP_cons, ha, hr]

/-- Every filesystem operation preserves the ledger invariant: the
used-block counter equals the number of dirty pages across all live
inodes, and every mapped page is dirty. -/
theorem step_ledger_inv (maxblks : Int) (sb : SbState) (op : Op)
    (h : LedgerInv sb) : LedgerInv (step maxblks sb op) := by
  obtain ⟨hused, hall⟩ := h
  cases op with
  | create ino =>
    cases hlk : pcLookup ino sb.inodes with
    | some i =>
      constructor
      · simpa [step, hlk] using hused
      · intro e he
        exact hall e (by simpa [step, hlk] using he)
    | none =>
      constructor
      · simp only [step, hlk]
        simpa [totalDirty, dirtyCount, newRegInode] using hused
      · intro e he
        simp only [step, hlk] at he
        rcases List.mem_append.mp he with hm | hm
        · exact hall e hm
        · rw [List.mem_singleton.mp hm]
          intro q hq
          simp [newRegInode] at hq
  | link ino =>
    cases hlk : pcLookup ino sb.inodes with
    | none =>
      constructor
      · simpa [step, hlk] using hused
      · intro e he
        exact hall e (by simpa [step, hlk] using he)
    | some i =>
      constructor
      · have hs := sum_map_pcUpdate (fun e => dirtyCount e.2)
          { i with nlink := nlinkInc i.nlink } hlk
        simp only [step, hlk]
        simp only [totalDirty, dirtyCount] at hs hused ⊢
        omega
      · intro e he
        simp only [step, hlk] at he
        rcases mem_pcUpdate he with rfl | hm
        · intro q hq
          exact hall _ (pcLookup_mem hlk) q hq
        · exact hall e hm
  | write ino pos len copied data garbage =>
    cases hlk : pcLookup ino sb.inodes with
    | none =>
      constructor
      · simpa [step, hlk] using hused
      · intro e he
        exact hall e (by simpa [step, hlk] using he)
    | some i =>
      have halli : ∀ q ∈ i.pages, q.2.dirty = true := hall _ (pcLookup_mem hlk)
      obtain ⟨hdelta, hall'⟩ :=
        doWrite_dirty_delta sb.used maxblks i pos len copied data garbage halli
      constructor
      · have hs := sum_map_pcUpdate (fun e => dirtyCount e.2)
          (doWrite sb.used maxblks i pos len copied data garbage).inode hlk
        simp only [step, hlk]
        simp only [totalDirty, dirtyCount] at hs hused hdelta ⊢
        omega
      · intro e he
        simp only [step, hlk] at he
        rcases mem_pcUpdate he with rfl | hm
        · intro q hq
          exact hall' q hq
        · exact hall e hm
  | unlink ino =>
    cases hlk : pcLookup ino sb.inodes with
    | none =>
      constructor
      · simpa [step, hlk] using hused
      · intro e he
        exact hall e (by simpa [step, hlk] using he)
    | some i =>
      have halli : ∀ q ∈ i.pages, q.2.dirty = true := hall _ (pcLookup_mem hlk)
      have hlen : i.pages.countP (fun e => e.2.dirty) = i.pages.length :=
        countP_eq_length_of_all halli
      by_cases hz : nlinkDec i.nlink = 0
      · have hstep : step maxblks sb (Op.unlink ino)
            = { used := sb.used - (i.pages.length : Int),
                inodes := pcUpdate ino { i with nlink := 0, pages := [] } sb.inodes } := by
          simp [step, hlk, myfs_unlink, hz]
        rw [hstep]
        constructor
        · have hs := sum_map_pcUpdate (fun e => dirtyCount e.2)
            { i with nlink := 0, pages := [] } hlk
          simp only [totalDirty, dirtyCount] at hs hused ⊢
          simp only [List.countP_nil] at hs
          omega
        · intro e he
          rcases mem_pcUpdate he with rfl | hm
          · intro q hq
            simp at hq
          · exact hall e hm
      · have hstep : step maxblks sb (Op.unlink ino)
            = { used := sb.used,
                inodes := pcUpdate ino { i with nlink := nlinkDec i.nlink } sb.inodes } := by
          simp [step, hlk, myfs_unlink, hz]
        rw [hstep]
        constructor
        · have hs := sum_map_pcUpdate (fun e => dirtyCount e.2)
            { i with nlink := nlinkDec i.nlink } hlk
          simp only [totalDirty, dirtyCount] at hs hused ⊢
          omega
        · intro e he
          rcases mem_pcUpdate he with rfl | hm
          · intro q hq
            exact hall _ (pcLookup_mem hlk) q hq
          · exact hall e hm

/-- The ledger invariant holds after any operation sequence from any
state satisfying it. -/
theorem foldl_ledger_inv (maxblks : Int) (ops : List Op) (sb : SbState)
    (h : LedgerInv sb) : LedgerInv (ops.foldl (step maxblks) sb) := by
  induction ops generalizing sb with
  | nil => exact h
  | cons op rest ih => exact ih _ (step_ledger_inv maxblks sb op h)

/-- C2. Over every sequence of create, link, write and unlink operations
from the freshly mounted state, the used-block counter equals the number
of distinct dirty (charged, not yet refunded) pages across all live
inodes; in particular the bulk refund at link count zero subtracts
exactly the pages charged for that inode, since every mapped page is
dirty in these flows. -/
theorem ledger_equals_dirty_pages (maxblks : Int) (ops : List Op) :
    (runOps maxblks ops).used = (totalDirty (runOps maxblks ops).inodes : Int) :=
  (foldl_ledger_inv maxblks ops { used := 0, inodes := [] }
    ⟨by simp [totalDirty], by simp⟩).1

/-- Page contents of an explicitly built page. -/
@[simp] theorem Page_data_mk (u d : Bool) (f : Nat → Nat) : (Page.mk u d f).data = f := rfl

/-- Setting the uptodate bit (SetPageUptodate guarded by PageUptodate)
never touches the page contents. -/
@[simp] theorem setUptodate_data (p : Page) :
    (if p.uptodate = false then { p with uptodate := true } else p).data = p.data := by
  split_ifs <;> rfl

/-- C6. For a write to a page that is absent or not fully populated
(with in-page offset ofs = pos mod 4096, ofs + len ≤ 4096 and
copied ≤ len), after the full write path every byte of the page is
deterministic: the bytes [ofs, ofs + copied) hold the caller's data and
every other byte is zero -- neither the allocator garbage, nor stale
previous contents, nor the gap of a short copy is ever visible. -/
theorem write_zero_fills_uncovered_bytes (used maxblks : Int) (inode : Inode)
    (pos len copied : Nat) (data garbage : Nat → Nat)
    (hadm : used < maxblks) (hcop : copied ≤ len)
    (hlen : pos % pageCacheSize + len ≤ pageCacheSize)
    (hupd : notUptodateAt inode.pages (pos / pageCacheSize) = true) :
    ∃ q, pcLookup (pos / pageCacheSize)
        (doWrite used maxblks inode pos len copied data garbage).inode.pages = some q ∧
      q.uptodate = true ∧
      ∀ j, j < pageCacheSize →
        q.data j = if pos % pageCacheSize ≤ j ∧ j < pos % pageCacheSize + copied
                   then data (j - pos % pageCacheSize) else 0 := by
  have hadm2 : ¬ used ≥ maxblks := not_le.mpr hadm
  cases hlk : pcLookup (pos / pageCacheSize) inode.pages with
  | none =>
    simp only [doWrite, myfs_write_begin, if_neg hadm2, grab_cache_page_write_begin, hlk,
      myfs_write_end]
    refine ⟨_, pcLookup_pcUpdate_self _ _ _, ?_, ?_⟩
    · rw [myset_snd_uptodate]
      split_ifs <;> simp_all
    · intro j hj
      rw [myset_snd_data]
      simp only [pageCacheSize] at hlen hj ⊢
      by_cases hl : len = 4096
      · by_cases hc : copied < 4096
        · simp only [hl, hc, setUptodate_data, zero_user, zero_user_segments, copyToPage,
            if_true, if_false, ite_true, ite_false, ne_eq, not_true_eq_false,
            false_and, and_false, and_true, reduceIte]
          try simp only [Page_data_mk, zeroRange]
          split_ifs <;> first | rfl | omega
        · simp only [hl, hc, setUptodate_data, zero_user, zero_user_segments, copyToPage,
            if_true, if_false, ite_true, ite_false, ne_eq, not_true_eq_false,
            false_and, and_false, and_true, reduceIte]
          try simp only [Page_data_mk, zeroRange]
          split_ifs <;> first | rfl | omega
      · by_cases hc : copied < len
        · simp only [hl, hc, setUptodate_data, zero_user, zero_user_segments, copyToPage,
            if_true, if_false, ite_true, ite_false, ne_eq, not_false_eq_true,
            and_true, true_and, reduceIte]
          try simp only [Page_data_mk, zeroRange]
          split_ifs <;> first | rfl | omega
        · simp only [hl, hc, setUptodate_data, zero_user, zero_user_segments, copyToPage,
            if_true, if_false, ite_true, ite_false, ne_eq, not_false_eq_true,
            and_true, true_and, reduceIte]
          try simp only [Page_data_mk, zeroRange]
          split_ifs <;> first | rfl | omega
  | some p =>
    have hpu : p.uptodate = false := by
      simpa [notUptodateAt, hlk] using hupd
    simp only [doWrite, myfs_write_begin, if_neg hadm2, grab_cache_page_write_begin, hlk,
      myfs_write_end]
    refine ⟨_, pcLookup_pcUpdate_self _ _ _, ?_, ?_⟩
    · rw [myset_snd_uptodate]
      split_ifs <;> simp_all
    · intro j hj
      rw [myset_snd_data]
      simp only [pageCacheSize] at hlen hj ⊢
      by_cases hl : len = 4096
      · by_cases hc : copied < 4096
        · simp only [hpu, hl, hc, setUptodate_data, zero_user, zero_user_segments, copyToPage,
            if_true, if_false, ite_true, ite_false, ne_eq, not_true_eq_false,
            false_and, and_false, and_true, reduceIte]
          try simp only [Page_data_mk, zeroRange]
          split_ifs <;> first | rfl | omega
        · simp only [hpu, hl, hc, setUptodate_data, zero_user, zero_user_segments, copyToPage,
            if_true, if_false, ite_true, ite_false, ne_eq, not_true_eq_false,
            false_and, and_false, and_true, reduceIte]
          try simp only [Page_data_mk, zeroRange]
          split_ifs <;> first | rfl | omega
      · by_cases hc : copied < len
        · simp only [hpu, hl, hc, setUptodate_data, zero_user, zero_user_segments, copyToPage,
            if_true, if_false, ite_true, ite_false, ne_eq, not_false_eq_true,
            and_true, true_and, reduceIte]
          try simp only [Page_data_mk, zeroRange]
          split_ifs <;> first | rfl | omega
        · simp only [hpu, hl, hc, setUptodate_data, zero_user, zero_user_segments, copyToPage,
            if_true, if_false, ite_true, ite_false, ne_eq, not_false_eq_true,
            and_true, true_and, reduceIte]
          try simp only [Page_data_mk, zeroRange]
          split_ifs <;> first | rfl | omega

/-- Witness for C6: writing 60 of a requested 100 bytes at offset 0 into
an absent page of an empty file (used 0, maxblks 4) yields a fully
populated page whose bytes [0, 60) are the data and all others zero. -/
theorem write_zero_fills_uncovered_bytes_witness :
    ((0 : Int) < 4 ∧ 60 ≤ 100 ∧ 0 % pageCacheSize + 100 ≤ pageCacheSize ∧
      notUptodateAt newRegInode.pages (0 / pageCacheSize) = true) ∧
    (∃ q, pcLookup (0 / pageCacheSize)
        (doWrite 0 4 newRegInode 0 100 60 (fun i => i + 1) (fun _ => 99)).inode.pages
          = some q ∧
      q.uptodate = true ∧
      ∀ j, j < pageCacheSize →
        q.data j = if 0 % pageCacheSize ≤ j ∧ j < 0 % pageCacheSize + 60
                   then (fun i => i + 1) (j - 0 % pageCacheSize) else 0) :=
  ⟨⟨by decide, by decide, by decide, by decide⟩,
    write_zero_fills_uncovered_bytes 0 4 newRegInode 0 100 60 (fun i => i + 1) (fun _ => 99)
      (by decide) (by decide) (by decide) (by decide)⟩
